import Mathlib

/-!
Verification of the production-report pipeline
(`src/Producion_Report_Tool.py`) against its specification.

The Python source is shallowly embedded: cells of the raw spreadsheet
table are modelled by `Cell`, dates by a day-number (`Date := Nat`,
days elapsed since 0000-03-01 of the proleptic Gregorian calendar),
fallible steps by `Except`/`Option`, and the pandas data-frame
pipeline of `process_input_data` by explicit list transformations.
-/

namespace ProdReport

/-- A raw spreadsheet cell: either missing (pandas `NaN`/`NaT`), a text
value, or a numeric value.  Only these shapes occur in the columns the
tool reads. -/
inductive Cell where
  | na
  | str (s : String)
  | int (n : Int)
deriving DecidableEq, Repr

abbrev RawRow := List Cell

/-- The raw input table (a rectangular pandas DataFrame): a column count
and the data rows; positional access past `ncols` is an error, mirroring
`DataFrame.iloc`. -/
structure Table where
  ncols : Nat
  rows : List RawRow
deriving Repr

/-! ### Calendar arithmetic

Dates are represented by their day number counted from 0000-03-01
(the standard civil-from-days / days-from-civil algorithms restricted
to nonnegative years, which is the range `strptime` accepts). -/

abbrev Date := Nat

def isLeap (y : Nat) : Bool := y % 4 == 0 && (y % 100 != 0 || y % 400 == 0)

def daysInMonth (y m : Nat) : Nat :=
  if m == 2 then (if isLeap y then 29 else 28)
  else if m == 4 || m == 6 || m == 9 || m == 11 then 30
  else 31

/-- Day number of the civil date `(y, m, d)`, counted from 0000-03-01. -/
def civilToDay (y m d : Nat) : Nat :=
  let y' := if m ≤ 2 then y - 1 else y
  let era := y' / 400
  let yoe := y' % 400
  let mp := (m + 9) % 12
  let doy := (153 * mp + 2) / 5 + d - 1
  let doe := yoe * 365 + yoe / 4 - yoe / 100 + doy
  era * 146097 + doe

/-- Inverse of `civilToDay`: the civil date `(y, m, d)` of a day number. -/
def dayToCivil (z : Nat) : Nat × Nat × Nat :=
  let era := z / 146097
  let doe := z % 146097
  let yoe := (doe - doe / 1460 + doe / 36524 - doe / 146096) / 365
  let y := yoe + era * 400
  let doy := doe - (365 * yoe + yoe / 4 - yoe / 100)
  let mp := (5 * doy + 2) / 153
  let d := doy - (153 * mp + 2) / 5 + 1
  let m := if mp < 10 then mp + 3 else mp - 9
  (if m ≤ 2 then y + 1 else y, m, d)

/-- Start of the Monday-based week containing a day, modelling
`Series.dt.to_period('W').dt.start_time` (pandas weekly periods are
anchored `W-SUN`, so they start on Monday). -/
def weekStartD (z : Date) : Date := z - (z + 2) % 7

/-- First day of the month containing a day, modelling
`Series.dt.to_period('M').dt.start_time`. -/
def monthStartD (z : Date) : Date :=
  let c := dayToCivil z
  civilToDay c.1 c.2.1 1

/-! ### Date parsing (`safe_date_parse`) -/

/-- Split a character list at every occurrence of `sep`, modelling the
field splitting a `strptime` format with literal separators performs. -/
def splitCharAux (sep : Char) : List Char → List Char → List (List Char)
  | [], acc => [acc.reverse]
  | c :: cs, acc =>
      if c = sep then acc.reverse :: splitCharAux sep cs []
      else splitCharAux sep cs (c :: acc)

def splitChar (sep : Char) (l : List Char) : List (List Char) := splitCharAux sep l []

/-- Numeric value of an all-digit group of bounded width, `none` otherwise. -/
def digitsToNat (maxLen : Nat) (l : List Char) : Option Nat :=
  if l ≠ [] ∧ l.length ≤ maxLen ∧ l.all (·.isDigit) then
    some (l.foldl (fun a c => a * 10 + (c.toNat - 48)) 0)
  else none

/-- Build a date from numeric year/month/day fields, validating ranges the
way `strptime`/`pandas.to_datetime(format=...)` do. -/
def mkDate (y m d : Nat) : Option Date :=
  if 1 ≤ y ∧ y ≤ 9999 ∧ 1 ≤ m ∧ m ≤ 12 ∧ 1 ≤ d ∧ d ≤ daysInMonth y m then
    some (civilToDay y m d)
  else none

/-- Parse `s` as three numeric fields separated by `sep`, combined by `mk`. -/
def parse3 (sep : Char) (w1 w2 w3 : Nat) (mk : Nat → Nat → Nat → Option Date)
    (l : List Char) : Option Date :=
  match splitChar sep l with
  | [a, b, c] => do
      let x ← digitsToNat w1 a
      let y ← digitsToNat w2 b
      let z ← digitsToNat w3 c
      mk x y z
  | _ => none

/-- Format `%Y-%m-%d`. -/
def fmtYmdDash (l : List Char) : Option Date := parse3 '-' 4 2 2 (fun y m d => mkDate y m d) l

/-- Format `%m/%d/%Y`. -/
def fmtMdySlash (l : List Char) : Option Date := parse3 '/' 2 2 4 (fun m d y => mkDate y m d) l

/-- Format `%d-%m-%Y`. -/
def fmtDmyDash (l : List Char) : Option Date := parse3 '-' 2 2 4 (fun d m y => mkDate y m d) l

/-- Format `%Y/%m/%d`. -/
def fmtYmdSlash (l : List Char) : Option Date := parse3 '/' 4 2 2 (fun y m d => mkDate y m d) l

/-- The explicit formats `safe_date_parse` attempts, in source order:
`['%Y-%m-%d', '%m/%d/%Y', '%d-%m-%Y', '%Y/%m/%d']`. -/
def tryFormats (l : List Char) : Option Date :=
  match fmtYmdDash l with
  | some d => some d
  | none =>
    match fmtMdySlash l with
    | some d => some d
    | none =>
      match fmtDmyDash l with
      | some d => some d
      | none => fmtYmdSlash l

/-- Models the permissive fallback `pd.to_datetime(date_str)` (dateutil):
accepts common separator/order variants of numeric dates; anything else
(in particular a string with non-digit fields such as "not-a-date")
fails with `none`. -/
def genericParse (l : List Char) : Option Date :=
  match tryFormats l with
  | some d => some d
  | none =>
    match parse3 '.' 4 2 2 (fun y m d => mkDate y m d) l with
    | some d => some d
    | none => parse3 '.' 2 2 4 (fun m d y => mkDate y m d) l

def isSpaceChar (c : Char) : Bool := c = ' ' || c = '\t' || c = '\n' || c = '\r'

/-- `str.strip()` on a character list. -/
def trimChars (l : List Char) : List Char :=
  ((l.dropWhile isSpaceChar).reverse.dropWhile isSpaceChar).reverse

/-- `str.upper()` on a character list (ASCII range, the only one the
sentinel comparison exercises). -/
def upperChars (l : List Char) : List Char := l.map Char.toUpper

def sentinels : List (List Char) :=
  [['W', 'I', 'P'], ['N', 'A'], ['N', '/', 'A'], []]

/-- The test `str(v).strip().upper() in ['WIP', 'NA', 'N/A', '']`. -/
def isSentinel (s : String) : Bool := upperChars (trimChars s.data) ∈ sentinels

/-- `safe_date_parse` (source lines 33-47).  The argument is the cell
seen as an optional string (`none` models a `NaN` cell).  Returns the
parsed date or `none` for the `NaT` marker, together with a flag that is
`true` exactly when the non-fatal warning message is printed. -/
def safe_date_parse (c : Option String) : Option Date × Bool :=
  match c with
  | none => (none, false)
  | some s =>
    if isSentinel s then (none, false)
    else
      match tryFormats s.data with
      | some d => (some d, false)
      | none =>
        match genericParse s.data with
        | some d => (some d, false)
        | none => (none, true)

/-! ### Column-letter resolution (`excel_column_to_index`) -/

def isUpperLetter (c : Char) : Bool := 65 ≤ c.toNat && c.toNat ≤ 90

/-- The accumulation loop of `excel_column_to_index`: `index = index * 26
+ (ord(char) - ord('A')) + 1`, failing on the first non-letter.  The
input is already uppercased. -/
def colValAux (acc : Nat) : List Char → Option Nat
  | [] => some acc
  | c :: cs =>
      if isUpperLetter c then colValAux (acc * 26 + (c.toNat - 64)) cs
      else none

/-- `excel_column_to_index` (source lines 49-61): uppercase the label,
accumulate the bijective base-26 value, return `value - 1`; any
non-letter character raises, which the handler converts to `None`.
Scope note: `str.isalpha` is modelled on the ASCII range. -/
def excel_column_to_index (s : String) : Option Int :=
  (colValAux 0 (s.data.map Char.toUpper)).map (fun v => (v : Int) - 1)

/-! ### Per-process extraction (`process_input_data`, lines 242-316) -/

/-- The three production stages; the source tags rows with the strings
produced by `procStr`. -/
inductive Proc where
  | Key
  | QC
  | Final
deriving DecidableEq, Repr

def procStr : Proc → String
  | .Key => "Key"
  | .QC => "QC"
  | .Final => "Final"

/-- The cell viewed as the optional string `safe_date_parse` receives:
`pd.isna` is checked first, otherwise `str(value)` is taken. -/
def cellStr : Cell → Option String
  | .na => none
  | .str s => some s
  | .int n => some (toString n)

/-- Numeric value of a cell, as used when summing a `Total Rec.` column. -/
def cellInt : Cell → Int
  | .int n => n
  | _ => 0

/-- `pd.isna` on a cell. -/
def cellNa : Cell → Bool
  | .na => true
  | _ => false

/-- The comparison `Indate <= Duedate` on date columns: pandas yields
`False` whenever either side is `NaT`. -/
def oleB : Option Date → Option Date → Bool
  | some a, some b => a ≤ b
  | _, _ => false

/-- Day difference between two optional dates, modelling
`(s1 - s2).dt.days`: `NaT` on either side propagates to missing. -/
def dateSub : Option Date → Option Date → Option Int
  | some a, some b => some ((a : Int) - (b : Int))
  | _, _ => none

/-- `[self.excel_column_to_index(col) for col in cols]` followed by the
`None in ...` check. -/
def resolveCols (labels : List String) : Except String (List Nat) :=
  let idxs := labels.map excel_column_to_index
  if idxs.all (·.isSome) then
    .ok (idxs.map (fun o => (o.getD 0).toNat))
  else .error "Invalid column specification"

/-- `input_df.iloc[:, idxs]`: positional selection; an index outside the
frame's columns raises `IndexError`. -/
def selectCols (t : Table) (idxs : List Nat) : Except String (List (List Cell)) :=
  if idxs.all (· < t.ncols) then
    .ok (t.rows.map (fun r => idxs.map (fun i => r.getD i .na)))
  else .error "IndexError"

/-- A Key-process row after column selection, renaming and date parsing
(before the `dropna` and the derived columns). -/
structure KeyPre where
  branch : Cell
  out : Option Date
  due : Option Date
  ind : Option Date
  tot : Cell
deriving DecidableEq, Repr

def keyPreOfRow (r : List Cell) : KeyPre :=
  { branch := r.getD 0 .na
    out := (safe_date_parse (cellStr (r.getD 1 .na))).1
    due := (safe_date_parse (cellStr (r.getD 2 .na))).1
    ind := (safe_date_parse (cellStr (r.getD 3 .na))).1
    tot := r.getD 4 .na }

/-- A retained Key-process record with its derived columns. -/
structure KeyRow where
  branch : Cell
  outdate : Option Date
  duedate : Option Date
  indate : Option Date
  totalRec : Cell
  processingDays : Option Int
  onTimeStatus : String
  week : Option Date
  month : Option Date
deriving DecidableEq, Repr

def mkKeyRow (p : KeyPre) : KeyRow :=
  { branch := p.branch
    outdate := p.out
    duedate := p.due
    indate := p.ind
    totalRec := p.tot
    processingDays := dateSub p.ind p.out
    onTimeStatus := if oleB p.ind p.due then "On Time" else "Delayed"
    week := p.ind.map weekStartD
    month := p.ind.map monthStartD }

def keyKeep (p : KeyPre) : Bool := !cellNa p.branch && !cellNa p.tot

/-- The parsed Key rows of a table (selection, renaming, date parsing). -/
def keyPres (t : Table) : Except String (List KeyPre) := do
  let idxs ← resolveCols ["J", "K", "L", "M", "N"]
  let sel ← selectCols t idxs
  return sel.map keyPreOfRow

/-- Key-process extraction (source lines 242-266, inside the guard):
parse, drop rows lacking `Key Branch` or `Total Rec.`, derive columns. -/
def extractKey (t : Table) : Except String (List KeyRow) := do
  let ps ← keyPres t
  return (ps.filter keyKeep).map mkKeyRow

/-- A QC-process row after selection, renaming and date parsing. -/
structure QCPre where
  branch : Cell
  out : Option Date
  ind : Option Date
  tot : Cell
deriving DecidableEq, Repr

def qcPreOfRow (r : List Cell) : QCPre :=
  { branch := r.getD 0 .na
    out := (safe_date_parse (cellStr (r.getD 1 .na))).1
    ind := (safe_date_parse (cellStr (r.getD 2 .na))).1
    tot := r.getD 3 .na }

/-- A retained QC-process record with its derived columns. -/
structure QCRow where
  branch : Cell
  outdate : Option Date
  indate : Option Date
  totalRec : Cell
  processingDays : Option Int
  week : Option Date
  month : Option Date
deriving DecidableEq, Repr

def mkQCRow (p : QCPre) : QCRow :=
  { branch := p.branch
    outdate := p.out
    indate := p.ind
    totalRec := p.tot
    processingDays := dateSub p.ind p.out
    week := p.ind.map weekStartD
    month := p.ind.map monthStartD }

def qcKeep (p : QCPre) : Bool := !cellNa p.branch && !cellNa p.tot

def qcPres (t : Table) : Except String (List QCPre) := do
  let idxs ← resolveCols ["U", "V", "W", "X"]
  let sel ← selectCols t idxs
  return sel.map qcPreOfRow

/-- QC-process extraction (source lines 268-291, inside the guard). -/
def extractQC (t : Table) : Except String (List QCRow) := do
  let ps ← qcPres t
  return (ps.filter qcKeep).map mkQCRow

/-- A Final-process row after selection, renaming and date parsing. -/
structure FinalPre where
  tot : Cell
  person : Cell
  out : Option Date
  ind : Option Date
  status : Cell
  ship : Option Date
deriving DecidableEq, Repr

def finalPreOfRow (r : List Cell) : FinalPre :=
  { tot := r.getD 0 .na
    person := r.getD 1 .na
    out := (safe_date_parse (cellStr (r.getD 2 .na))).1
    ind := (safe_date_parse (cellStr (r.getD 3 .na))).1
    status := r.getD 4 .na
    ship := (safe_date_parse (cellStr (r.getD 5 .na))).1 }

/-- A retained Final-process record with its derived columns. -/
structure FinalRow where
  totalRec : Cell
  person : Cell
  outdate : Option Date
  indate : Option Date
  status : Cell
  shipDate : Option Date
  processingDays : Option Int
  week : Option Date
  month : Option Date
deriving DecidableEq, Repr

def mkFinalRow (p : FinalPre) : FinalRow :=
  { totalRec := p.tot
    person := p.person
    outdate := p.out
    indate := p.ind
    status := p.status
    shipDate := p.ship
    processingDays := dateSub p.ship p.out
    week := p.ship.map weekStartD
    month := p.ship.map monthStartD }

def finalKeep (p : FinalPre) : Bool := !cellNa p.person && !cellNa p.tot

def finalPres (t : Table) : Except String (List FinalPre) := do
  let idxs ← resolveCols ["X", "Y", "Z", "AA", "AB", "AC"]
  let sel ← selectCols t idxs
  return sel.map finalPreOfRow

/-- Final-process extraction (source lines 293-316, inside the guard). -/
def extractFinal (t : Table) : Except String (List FinalRow) := do
  let ps ← finalPres t
  return (ps.filter finalKeep).map mkFinalRow

/-! ### Grouping and aggregation (`process_input_data`, lines 318-477)

pandas `groupby` with default `sort=True` and `dropna=True` produces one
row per distinct non-missing key, keys sorted ascending.  It is modelled
by `groupbySum`/`groupbyAgg` below: deduplicate the keys, sort them with
the relevant comparator, and aggregate the matching rows. -/

/-- Lexicographic strict comparison on character lists (the order
Python/pandas use on strings). -/
def charListLt : List Char → List Char → Bool
  | [], [] => false
  | [], _ :: _ => true
  | _ :: _, [] => false
  | a :: as, b :: bs => a.toNat < b.toNat || (a.toNat == b.toNat && charListLt as bs)

def strLtB (a b : String) : Bool := charListLt a.data b.data

def strLeB (a b : String) : Bool := a == b || strLtB a b

/-- Strict comparison on cells, fixing an order for `groupby` key
sorting (name cells are strings in practice, compared as pandas does). -/
def cellLt : Cell → Cell → Bool
  | .na, .na => false
  | .na, _ => true
  | _, .na => false
  | .int a, .int b => a < b
  | .int _, .str _ => true
  | .str _, .int _ => false
  | .str a, .str b => strLtB a b

def sortKeys {κ : Type} [DecidableEq κ] (le : κ → κ → Bool) (l : List κ) : List κ :=
  List.insertionSort (fun a b => le a b = true) l.dedup

/-- `groupby(keys).sum()` over (key, value) rows: distinct keys sorted by
`le`, each paired with the sum of its matching values. -/
def groupbySum {κ : Type} [DecidableEq κ] (le : κ → κ → Bool)
    (rows : List (κ × Int)) : List (κ × Int) :=
  (sortKeys le (rows.map (·.1))).map
    (fun k => (k, ((rows.filter (fun r => r.1 = k)).map (·.2)).sum))

/-- Mean of a list of integers (`mean` aggregation over the non-missing
values); `none` when there are none, as pandas yields `NaN`. -/
def meanQ (l : List Int) : Option ℚ :=
  if l.isEmpty then none else some ((l.sum : ℚ) / (l.length : ℚ))

/-- `groupby(keys).agg(sum, mean)` over (key, total, processing-days)
rows; the mean skips missing processing-day values. -/
def groupbyAgg {κ : Type} [DecidableEq κ] (le : κ → κ → Bool)
    (rows : List (κ × Int × Option Int)) : List (κ × Int × Option ℚ) :=
  (sortKeys le (rows.map (·.1))).map
    (fun k =>
      let g := rows.filter (fun r => r.1 = k)
      (k, (g.map (fun r => r.2.1)).sum, meanQ (g.filterMap (fun r => r.2.2))))

/-- Ascending order on the `(Name, Process)` group key; the `Process`
component is compared through its string value as pandas does. -/
def npLe (a b : Cell × Proc) : Bool :=
  cellLt a.1 b.1 || (a.1 == b.1 && strLeB (procStr a.2) (procStr b.2))

/-- Ascending order on the `(Period, Name)` group key. -/
def dcLe (a b : Date × Cell) : Bool :=
  a.1 < b.1 || (a.1 == b.1 && (cellLt a.2 b.2 || a.2 == b.2))

def natLe (a b : Date) : Bool := a ≤ b

def procLe (a b : Proc) : Bool := strLeB (procStr a) (procStr b)

/-- The `(Name, TotalRecords, Process)` projection of the three process
tables concatenated in source order (Key, QC, Final). -/
def projPersonnel (ks : List KeyRow) (qs : List QCRow) (fs : List FinalRow) :
    List ((Cell × Proc) × Int) :=
  ks.map (fun k => ((k.branch, Proc.Key), cellInt k.totalRec))
    ++ qs.map (fun q => ((q.branch, Proc.QC), cellInt q.totalRec))
    ++ fs.map (fun f => ((f.person, Proc.Final), cellInt f.totalRec))

structure PersonnelRow where
  sno : Nat
  name : Cell
  proc : Proc
  total : Int
deriving DecidableEq, Repr

/-- Descending order by summed `Total Rec.` used by
`sort_values(by='Total Rec.', ascending=False)`. -/
def byTotalDesc (a b : (Cell × Proc) × Int) : Prop := b.2 ≤ a.2

instance : DecidableRel byTotalDesc :=
  fun a b => inferInstanceAs (Decidable (b.2 ≤ a.2))

instance : IsTotal ((Cell × Proc) × Int) byTotalDesc :=
  ⟨fun a b => le_total b.2 a.2⟩

instance : IsTrans ((Cell × Proc) × Int) byTotalDesc :=
  ⟨fun _ _ _ h1 h2 => le_trans h2 h1⟩

/-- Sequential numbering starting at `i`, modelling
`range(1, len(df) + 1)` zipped with the rows. -/
def numberFrom {α : Type} (i : Nat) : List α → List (Nat × α)
  | [] => []
  | a :: as => (i, a) :: numberFrom (i + 1) as

/-- The overall personnel report (source lines 387-397): concatenate the
projections, group by `(Name, Process)` summing `Total Rec.`, sort
descending by the summed total, and insert the serial-number column
`S.No. = 1, 2, ...`. -/
def mkPersonnel (ks : List KeyRow) (qs : List QCRow) (fs : List FinalRow) :
    List PersonnelRow :=
  let grouped := groupbySum npLe (projPersonnel ks qs fs)
  let sorted := List.insertionSort byTotalDesc grouped
  (numberFrom 1 sorted).map (fun p => ⟨p.1, p.2.1.1, p.2.1.2, p.2.2⟩)

structure PeriodPersonnelRow where
  period : Date
  name : Cell
  proc : Proc
  total : Int
deriving DecidableEq, Repr

/-- Per-process `groupby([Period, Name]).sum()` over projected
(name, total, optional-period) rows; rows with a missing period are
dropped by `groupby`. -/
def periodNameGroups (rows : List (Cell × Int × Option Date)) :
    List ((Date × Cell) × Int) :=
  groupbySum dcLe (rows.filterMap (fun r => r.2.2.map (fun p => ((p, r.1), r.2.1))))

/-- Final sort of the periodic personnel report:
`sort_values([Period, 'Total Rec.'], ascending=[True, False])`. -/
def ppLe (a b : PeriodPersonnelRow) : Prop :=
  a.period < b.period ∨ (a.period = b.period ∧ b.total ≤ a.total)

instance : DecidableRel ppLe := fun a b =>
  inferInstanceAs (Decidable (a.period < b.period ∨ (a.period = b.period ∧ b.total ≤ a.total)))

/-- The weekly/monthly personnel report (source lines 320-417): group
each process table by `(Period, Name)` summing totals, tag with the
process, concatenate, and sort by period then descending total. -/
def mkPersonnelPeriodFrom (kRows qRows fRows : List (Cell × Int × Option Date)) :
    List PeriodPersonnelRow :=
  let tag (pr : Proc) (g : List ((Date × Cell) × Int)) : List PeriodPersonnelRow :=
    g.map (fun x => ⟨x.1.1, x.1.2, pr, x.2⟩)
  List.insertionSort ppLe
    (tag .Key (periodNameGroups kRows) ++ tag .QC (periodNameGroups qRows)
      ++ tag .Final (periodNameGroups fRows))

structure PeriodGroup where
  period : Date
  proc : Proc
  total : Int
  avgPD : Option ℚ
deriving DecidableEq, Repr

/-- Per-process `groupby([Period, Process]).agg(sum, mean)` over
projected (optional-period, total, processing-days) rows. -/
def procPeriodGroups (pr : Proc) (rows : List (Option Date × Int × Option Int)) :
    List PeriodGroup :=
  (groupbyAgg natLe (rows.filterMap (fun r => r.1.map (fun p => (p, r.2))))).map
    (fun g => ⟨g.1, pr, g.2.1, g.2.2⟩)

/-- One row of the pivoted weekly/monthly report: the period and the
named metric columns. -/
structure PivotRow where
  period : Date
  cells : List (String × ℚ)
deriving DecidableEq, Repr

def lookupCell (row : PivotRow) (nm : String) : Option ℚ :=
  (row.cells.find? (fun c => c.1 == nm)).map (·.2)

/-- The pivot of source lines 433-447 / 463-477: one row per period
present in any process, one column per (metric, process present) pair
named by joining the two levels with a space, missing combinations
filled with 0 (`pivot_table(...).fillna(0)`; pandas sorts the column
MultiIndex, placing the `Processing Days` columns first). -/
def pivotPeriod (gs : List PeriodGroup) : List PivotRow :=
  let periods := sortKeys natLe (gs.map (·.period))
  let procs := sortKeys procLe (gs.map (·.proc))
  periods.map (fun p =>
    { period := p
      cells :=
        procs.map (fun pr => ("Processing Days " ++ procStr pr,
          ((gs.find? (fun g => g.period == p && g.proc == pr)).bind (·.avgPD)).getD 0))
          ++ procs.map (fun pr => ("Total Rec. " ++ procStr pr,
            ((gs.find? (fun g => g.period == p && g.proc == pr)).map
              (fun g => (g.total : ℚ))).getD 0)) })

/-- The concatenated weekly per-(period, process) groups of the three
process tables. -/
def weeklyGroups (ks : List KeyRow) (qs : List QCRow) (fs : List FinalRow) :
    List PeriodGroup :=
  procPeriodGroups .Key (ks.map (fun k => (k.week, cellInt k.totalRec, k.processingDays)))
    ++ procPeriodGroups .QC (qs.map (fun q => (q.week, cellInt q.totalRec, q.processingDays)))
    ++ procPeriodGroups .Final (fs.map (fun f => (f.week, cellInt f.totalRec, f.processingDays)))

/-- The concatenated monthly per-(period, process) groups. -/
def monthlyGroups (ks : List KeyRow) (qs : List QCRow) (fs : List FinalRow) :
    List PeriodGroup :=
  procPeriodGroups .Key (ks.map (fun k => (k.month, cellInt k.totalRec, k.processingDays)))
    ++ procPeriodGroups .QC (qs.map (fun q => (q.month, cellInt q.totalRec, q.processingDays)))
    ++ procPeriodGroups .Final (fs.map (fun f => (f.month, cellInt f.totalRec, f.processingDays)))

/-! ### Orchestration (`process_input_data` result, `save_reports`) -/

/-- The `results` dictionary of `process_input_data`: the three process
tables (empty after a caught per-process failure), the five derived
reports (`none` when never built), and the warnings reported through
`messagebox.showwarning`, identified by the failed process. -/
structure Results where
  key : List KeyRow
  qc : List QCRow
  fin : List FinalRow
  weekly : Option (List PivotRow)
  monthly : Option (List PivotRow)
  personnel : Option (List PersonnelRow)
  personnelWeekly : Option (List PeriodPersonnelRow)
  personnelMonthly : Option (List PeriodPersonnelRow)
  warnings : List String
deriving Repr

/-- `process_input_data` (source lines 219-484): reject an empty input
table, run the three extractions each inside its own handler (a failure
degrades that process to an empty table plus a warning), then build the
personnel and period reports from whatever survived. -/
def processAll (t : Table) : Option Results :=
  if t.rows.isEmpty then none
  else
    let keyE := extractKey t
    let qcE := extractQC t
    let finE := extractFinal t
    let ks := keyE.toOption.getD []
    let qs := qcE.toOption.getD []
    let fs := finE.toOption.getD []
    let warns :=
      (match keyE with | .error _ => ["Key"] | _ => [])
        ++ (match qcE with | .error _ => ["QC"] | _ => [])
        ++ (match finE with | .error _ => ["Final"] | _ => [])
    let anyData := !ks.isEmpty || !qs.isEmpty || !fs.isEmpty
    some
      { key := ks
        qc := qs
        fin := fs
        weekly := if anyData then some (pivotPeriod (weeklyGroups ks qs fs)) else none
        monthly := if anyData then some (pivotPeriod (monthlyGroups ks qs fs)) else none
        personnel := if anyData then some (mkPersonnel ks qs fs) else none
        personnelWeekly :=
          if anyData then
            some (mkPersonnelPeriodFrom
              (ks.map (fun k => (k.branch, cellInt k.totalRec, k.week)))
              (qs.map (fun q => (q.branch, cellInt q.totalRec, q.week)))
              (fs.map (fun f => (f.person, cellInt f.totalRec, f.week))))
          else none
        personnelMonthly :=
          if anyData then
            some (mkPersonnelPeriodFrom
              (ks.map (fun k => (k.branch, cellInt k.totalRec, k.month)))
              (qs.map (fun q => (q.branch, cellInt q.totalRec, q.month)))
              (fs.map (fun f => (f.person, cellInt f.totalRec, f.month))))
          else none
        warnings := warns }

def optNonempty {α : Type} : Option (List α) → Bool
  | some l => !l.isEmpty
  | none => false

/-- The sheets `save_reports` (source lines 486-623) creates, in source
order; a sheet is created only when its source table is present and
non-empty. -/
def sheetNames (r : Results) : List String :=
  (if !r.key.isEmpty then ["Key Process"] else [])
    ++ (if !r.qc.isEmpty then ["QC Process"] else [])
    ++ (if !r.fin.isEmpty then ["Final Process"] else [])
    ++ (if optNonempty r.weekly then ["Weekly Report"] else [])
    ++ (if optNonempty r.monthly then ["Monthly Report"] else [])
    ++ (if optNonempty r.personnel then ["Personnel Performance"] else [])
    ++ (if optNonempty r.personnelWeekly then ["Personnel Weekly"] else [])
    ++ (if optNonempty r.personnelMonthly then ["Personnel Monthly"] else [])

/-- The fixed sheet order of the workbook. -/
def allSheetNames : List String :=
  ["Key Process", "QC Process", "Final Process", "Weekly Report", "Monthly Report",
    "Personnel Performance", "Personnel Weekly", "Personnel Monthly"]

/-- An ASCII letter in either case (`str.isalpha` restricted to the
ASCII range the tool's labels use). -/
def isAsciiLetter (c : Char) : Bool :=
  (65 ≤ c.toNat && c.toNat ≤ 90) || (97 ≤ c.toNat && c.toNat ≤ 122)

/-! ### Concrete instances used as witnesses and counterexamples -/

/-- Pad a row with missing cells up to the table width. -/
def padCells (l : List Cell) (n : Nat) : List Cell :=
  l ++ List.replicate (n - l.length) Cell.na

/-- A 29-column raw row holding one Key-process record (columns J-N):
name "Ann", no out-date, no due-date, in-date 2024-03-05, 7 records. -/
def wRow : RawRow :=
  padCells (List.replicate 9 Cell.na ++
    [Cell.str "Ann", Cell.na, Cell.na, Cell.str "2024-03-05", Cell.int 7]) 29

def tW : Table := ⟨29, [wRow]⟩

def psW : List KeyPre := (keyPres tW).toOption.getD []

def lW : List KeyRow := (extractKey tW).toOption.getD []

def dummyKeyRow : KeyRow :=
  ⟨Cell.na, none, none, none, Cell.na, none, "", none, none⟩

def kW : KeyRow := lW.getD 0 dummyKeyRow

/-- A retained Key record carrying only a name and a total (all dates
missing), used to exhibit rank ties. -/
def tieRow (nm : String) (tot : Int) : KeyRow :=
  ⟨Cell.str nm, none, none, none, Cell.int tot, none, "Delayed", none, none⟩

/-- Two retained Key records with equal totals, "Bob" seen first. -/
def ksTies : List KeyRow := [tieRow "Bob" 5, tieRow "Alice" 5]

/-- A 24-column table: wide enough for the Key (J-N) and QC (U-X)
column ranges but not for the Final range (X-AC), so Final extraction
fails with an `IndexError` while Key and QC succeed. -/
def t24 : Table :=
  ⟨24, [padCells (List.replicate 9 Cell.na ++
    [Cell.str "Ann", Cell.str "2024-03-01", Cell.na, Cell.str "2024-03-05", Cell.int 7] ++
    List.replicate 6 Cell.na ++
    [Cell.str "Bea", Cell.str "2024-03-02", Cell.str "2024-03-06", Cell.int 3]) 24]⟩

/-- A 29-column table whose single Key row has its in-date cell `WIP`,
so the parsed anchor date is missing. -/
def t10 : Table :=
  ⟨29, [padCells (List.replicate 9 Cell.na ++
    [Cell.str "Cara", Cell.na, Cell.na, Cell.str "WIP", Cell.int 4]) 29]⟩

def l10 : List KeyRow := (extractKey t10).toOption.getD []

def k10 : KeyRow := l10.getD 0 dummyKeyRow

/-- An empty result set (no process data, no reports). -/
def rEmpty : Results := ⟨[], [], [], none, none, none, none, none, []⟩

/-- The result of running the pipeline on `t24`. -/
def r24 : Results := (processAll t24).getD rEmpty

def dummyPivotRow : PivotRow := ⟨0, []⟩

/-- Concrete period groups: Key active in periods 100 and 107, Final
active in 107 only — so the pivot row for period 100 must fill the
Final columns with 0. -/
def gsW : List PeriodGroup :=
  [⟨100, Proc.Key, 5, none⟩, ⟨107, Proc.Key, 2, none⟩, ⟨107, Proc.Final, 3, none⟩]

/-! ## Theorems -/

/-! ### Column mapping (C7) -/

def pvStep (a : Nat) (c : Char) : Nat := a * 26 + (c.toNat - 64)

/-- The bijective base-26 value accumulated by `excel_column_to_index`. -/
def pv (l : List Char) : Nat := l.foldl pvStep 0

theorem colValAux_letters (l : List Char) :
    ∀ acc : Nat, (∀ c ∈ l, isUpperLetter c = true) →
      colValAux acc l = some (l.foldl pvStep acc) := by
  induction l with
  | nil => intro acc _; rfl
  | cons c cs ih =>
    intro acc h
    have hc : isUpperLetter c = true := h c (List.mem_cons_self c cs)
    simp only [colValAux, hc, if_pos, List.foldl_cons]
    exact ih _ (fun d hd => h d (List.mem_cons_of_mem c hd))

theorem colValAux_none (l : List Char) :
    ∀ acc : Nat, (∃ c ∈ l, isUpperLetter c = false) → colValAux acc l = none := by
  induction l with
  | nil => intro acc h; rcases h with ⟨c, hc, _⟩; cases hc
  | cons c cs ih =>
    intro acc h
    rcases h with ⟨d, hd, hdf⟩
    rcases List.mem_cons.mp hd with rfl | hd'
    · simp [colValAux, hdf]
    · by_cases hc : isUpperLetter c = true
      · simp only [colValAux, hc, if_pos]
        exact ih _ ⟨d, hd', hdf⟩
      · simp [colValAux, Bool.eq_false_iff.mpr hc]

theorem foldl_pvStep_shift (l : List Char) :
    ∀ acc : Nat, l.foldl pvStep acc = acc * 26 ^ l.length + pv l := by
  induction l with
  | nil => intro acc; simp [pv]
  | cons c cs ih =>
    intro acc
    have h1 := ih (pvStep acc c)
    have h2 := ih (pvStep 0 c)
    simp only [List.foldl_cons, List.length_cons, pv] at *
    rw [h1, h2]
    simp only [pvStep]
    ring

theorem pv_snoc (l : List Char) (c : Char) :
    pv (l ++ [c]) = (pv l) * 26 + (c.toNat - 64) := by
  simp [pv, List.foldl_append, pvStep]

theorem letter_bounds {c : Char} (h : isUpperLetter c = true) :
    65 ≤ c.toNat ∧ c.toNat ≤ 90 := by
  simp only [isUpperLetter, Bool.and_eq_true, decide_eq_true_eq] at h
  exact h

theorem pv_inj (l1 : List Char) : ∀ l2 : List Char,
    (∀ c ∈ l1, isUpperLetter c = true) → (∀ c ∈ l2, isUpperLetter c = true) →
    pv l1 = pv l2 → l1 = l2 := by
  induction l1 using List.reverseRecOn with
  | nil =>
    intro l2 _ h2 h
    cases l2 using List.reverseRecOn with
    | nil => rfl
    | append_singleton l c =>
      exfalso
      rw [pv_snoc] at h
      have hb := letter_bounds (h2 c (by simp))
      have : pv ([] : List Char) = 0 := rfl
      omega
  | append_singleton l1 c1 ih =>
    intro l2 h1 h2 h
    cases l2 using List.reverseRecOn with
    | nil =>
      exfalso
      rw [pv_snoc] at h
      have hb := letter_bounds (h1 c1 (by simp))
      have : pv ([] : List Char) = 0 := rfl
      omega
    | append_singleton l2 c2 =>
      rw [pv_snoc, pv_snoc] at h
      have hb1 := letter_bounds (h1 c1 (by simp))
      have hb2 := letter_bounds (h2 c2 (by simp))
      have hd : c1.toNat - 64 = c2.toNat - 64 := by omega
      have hv : pv l1 = pv l2 := by omega
      have hc : c1 = c2 := by
        have : c1.toNat = c2.toNat := by omega
        exact Char.eq_of_val_eq (UInt32.toNat.inj this)
      subst hc
      have hl : l1 = l2 :=
        ih l2 (fun d hd' => h1 d (List.mem_append_left _ hd'))
          (fun d hd' => h2 d (List.mem_append_left _ hd')) hv
      rw [hl]

theorem toUpper_fixed {c : Char} (h : isUpperLetter c = true) : c.toUpper = c := by
  have hb := letter_bounds h
  simp only [Char.toUpper]
  rw [if_neg]
  omega

theorem toUpper_not_letter {c : Char} (hascii : c.toNat < 128)
    (h : isAsciiLetter c = false) : isUpperLetter c.toUpper = false := by
  simp only [isAsciiLetter, Bool.or_eq_false_iff, Bool.and_eq_false_iff,
    decide_eq_false_iff_not, not_le] at h
  simp only [Char.toUpper]
  split
  · omega
  · simp only [isUpperLetter, Bool.and_eq_false_iff, decide_eq_false_iff_not, not_le]
    omega

/-- C7 counterexample: `excel_column_to_index` is case-insensitive, so it
is not injective over labels of letters in either case — the distinct
labels "a" and "A" both map to index 0. -/
theorem excel_column_to_index_not_injective_mixed_case :
    excel_column_to_index "a" = some 0 ∧ excel_column_to_index "A" = some 0 ∧
      ("a" : String) ≠ "A" := by
  refine ⟨by decide, by decide, by decide⟩

/-- C7 (amended): for every nonempty column label of uppercase letters
A-Z, `excel_column_to_index` returns the zero-based bijective base-26
index — "A" gives 0, "Z" gives 25, "AA" gives 26 — the mapping is
injective over such same-case labels (lowercase variants collide with
their uppercase forms by design), and any ASCII input containing a
non-letter character yields the error value `none` rather than an
index. -/
theorem excel_column_to_index_spec :
    excel_column_to_index "A" = some 0 ∧ excel_column_to_index "Z" = some 25 ∧
      excel_column_to_index "AA" = some 26 ∧
      (∀ s : String, (∀ c ∈ s.data, c.toNat < 128) →
        (∃ c ∈ s.data, isAsciiLetter c = false) → excel_column_to_index s = none) ∧
      (∀ s1 s2 : String, (∀ c ∈ s1.data, isUpperLetter c = true) →
        (∀ c ∈ s2.data, isUpperLetter c = true) →
        excel_column_to_index s1 = excel_column_to_index s2 → s1 = s2) := by
  refine ⟨by decide, by decide, by decide, ?_, ?_⟩
  · intro s hascii ⟨c, hc, hcf⟩
    have : ∃ d ∈ s.data.map Char.toUpper, isUpperLetter d = false :=
      ⟨c.toUpper, List.mem_map_of_mem Char.toUpper hc,
        toUpper_not_letter (hascii c hc) hcf⟩
    simp [excel_column_to_index, colValAux_none _ 0 this]
  · intro s1 s2 h1 h2 h
    have hu1 : s1.data.map Char.toUpper = s1.data := by
      rw [show s1.data = s1.data.map id by simp]
      simp only [List.map_map]
      exact List.map_congr_left (fun c hc => toUpper_fixed (h1 c (by simpa using hc)))
    have hu2 : s2.data.map Char.toUpper = s2.data := by
      rw [show s2.data = s2.data.map id by simp]
      simp only [List.map_map]
      exact List.map_congr_left (fun c hc => toUpper_fixed (h2 c (by simpa using hc)))
    have e1 : excel_column_to_index s1 = some ((pv s1.data : Int) - 1) := by
      simp [excel_column_to_index, hu1, colValAux_letters _ 0 h1, pv]
    have e2 : excel_column_to_index s2 = some ((pv s2.data : Int) - 1) := by
      simp [excel_column_to_index, hu2, colValAux_letters _ 0 h2, pv]
    rw [e1, e2] at h
    have hi : (pv s1.data : Int) - 1 = (pv s2.data : Int) - 1 := Option.some.inj h
    have hpv : pv s1.data = pv s2.data := by omega
    have hdata := pv_inj s1.data s2.data h1 h2 hpv
    cases s1
    cases s2
    exact congrArg String.mk hdata

/-- C7 witness: the amended theorem applied at the concrete inputs
"A?" (contains a non-letter, so the mapping errors) and at the
uppercase labels "AB" and "AB". -/
theorem excel_column_to_index_spec_witness :
    excel_column_to_index "A?" = none :=
  excel_column_to_index_spec.2.2.2.1 "A?" (by decide) ⟨'?', by decide, by decide⟩

/-! ### Date normalization (C3, C4) -/

/-- C3: `safe_date_parse` is total — every cell value yields either a
parsed date or the `Missing` marker, never an error that aborts the
pipeline; a missing cell and the sentinel strings `WIP`, `NA`, `N/A`
and empty/blank (case-insensitively, after trimming) map directly to
`Missing` without a warning, and the unparsable string "not-a-date"
maps to `Missing` with exactly one non-fatal warning emitted. -/
theorem safe_date_parse_total_and_sentinels :
    (∀ c : Option String, (safe_date_parse c).1 = none ∨ ∃ d, (safe_date_parse c).1 = some d) ∧
      safe_date_parse none = (none, false) ∧
      (∀ s : String, upperChars (trimChars s.data) ∈ sentinels →
        safe_date_parse (some s) = (none, false)) ∧
      safe_date_parse (some "not-a-date") = (none, true) := by
  refine ⟨fun c => ?_, rfl, fun s hs => ?_, by decide⟩
  · cases h : (safe_date_parse c).1 with
    | none => exact Or.inl rfl
    | some d => exact Or.inr ⟨d, rfl⟩
  · have : isSentinel s = true := by simp [isSentinel, hs]
    simp [safe_date_parse, this]

/-- C3 witness: the sentinel conjunct applied to the padded mixed-case
string "  wIp ". -/
theorem safe_date_parse_total_and_sentinels_witness :
    safe_date_parse (some "  wIp ") = (none, false) :=
  safe_date_parse_total_and_sentinels.2.2.1 "  wIp " (by decide)

/-- C4: for non-sentinel strings `safe_date_parse` attempts the explicit
formats in the fixed order `%Y-%m-%d`, `%m/%d/%Y`, `%d-%m-%Y`,
`%Y/%m/%d`; the first success wins with no cross-validation, only when
all four fail is the permissive fallback parse consulted, and the
ambiguous string "01/02/2024" resolves as `%m/%d/%Y` (January 2, 2024)
precisely because ISO parsing fails on it first. -/
theorem safe_date_parse_format_priority :
    (∀ (s : String) (d : Date), isSentinel s = false → fmtYmdDash s.data = some d →
        safe_date_parse (some s) = (some d, false)) ∧
      (∀ (s : String) (d : Date), isSentinel s = false → fmtYmdDash s.data = none →
        fmtMdySlash s.data = some d → safe_date_parse (some s) = (some d, false)) ∧
      (∀ (s : String) (d : Date), isSentinel s = false → fmtYmdDash s.data = none →
        fmtMdySlash s.data = none → fmtDmyDash s.data = some d →
        safe_date_parse (some s) = (some d, false)) ∧
      (∀ (s : String) (d : Date), isSentinel s = false → fmtYmdDash s.data = none →
        fmtMdySlash s.data = none → fmtDmyDash s.data = none → fmtYmdSlash s.data = some d →
        safe_date_parse (some s) = (some d, false)) ∧
      (∀ s : String, isSentinel s = false → fmtYmdDash s.data = none →
        fmtMdySlash s.data = none → fmtDmyDash s.data = none → fmtYmdSlash s.data = none →
        safe_date_parse (some s) =
          (match genericParse s.data with
            | some d => (some d, false)
            | none => (none, true))) ∧
      fmtYmdDash ("01/02/2024" : String).data = none ∧
      fmtMdySlash ("01/02/2024" : String).data = some (civilToDay 2024 1 2) := by
  refine ⟨?_, ?_, ?_, ?_, ?_, by decide, by decide⟩
  · intro s d hs h1
    simp [safe_date_parse, hs, tryFormats, h1]
  · intro s d hs h1 h2
    simp [safe_date_parse, hs, tryFormats, h1, h2]
  · intro s d hs h1 h2 h3
    simp [safe_date_parse, hs, tryFormats, h1, h2, h3]
  · intro s d hs h1 h2 h3 h4
    simp [safe_date_parse, hs, tryFormats, h1, h2, h3, h4]
  · intro s hs h1 h2 h3 h4
    simp [safe_date_parse, hs, tryFormats, h1, h2, h3, h4]

/-- C4 witness: the second-priority conjunct applied to the ambiguous
string "01/02/2024", which parses as January 2, 2024. -/
theorem safe_date_parse_format_priority_witness :
    safe_date_parse (some "01/02/2024") = (some (civilToDay 2024 1 2), false) :=
  safe_date_parse_format_priority.2.1 "01/02/2024" (civilToDay 2024 1 2)
    (by decide) (by decide) (by decide)

/-! ### Row filtering and derived columns (C2, C9) -/

theorem cellNa_iff (c : Cell) : cellNa c = true ↔ c = Cell.na := by
  cases c <;> simp [cellNa]

theorem extractKey_of_pres {t : Table} {ps : List KeyPre} (h : keyPres t = .ok ps) :
    extractKey t = .ok ((ps.filter keyKeep).map mkKeyRow) := by
  simp [extractKey, h, Except.bind]

theorem extractQC_of_pres {t : Table} {ps : List QCPre} (h : qcPres t = .ok ps) :
    extractQC t = .ok ((ps.filter qcKeep).map mkQCRow) := by
  simp [extractQC, h, Except.bind]

theorem extractFinal_of_pres {t : Table} {ps : List FinalPre} (h : finalPres t = .ok ps) :
    extractFinal t = .ok ((ps.filter finalKeep).map mkFinalRow) := by
  simp [extractFinal, h, Except.bind]

/-- C2: for each process extractor, the retained rows are exactly the
parsed rows whose `Name` and `Total Rec.` cells are present (a row is
dropped precisely when one of the two is absent); a kept row with a
missing `OutDate` keeps `ProcessingDays = Missing`; and for every kept
row `ProcessingDays` is the anchor date minus `OutDate` in whole days,
the anchor being `InDate` for Key and QC and the shipment date for
Final. -/
theorem extractor_row_filtering_and_processing_days :
    (∀ (t : Table) (ps : List KeyPre) (l : List KeyRow),
        keyPres t = .ok ps → extractKey t = .ok l →
        l = (ps.filter keyKeep).map mkKeyRow ∧
          (∀ p : KeyPre, keyKeep p = false ↔ (p.branch = Cell.na ∨ p.tot = Cell.na)) ∧
          ∀ k ∈ l, k.branch ≠ Cell.na ∧ k.totalRec ≠ Cell.na ∧
            k.processingDays = dateSub k.indate k.outdate ∧
            (k.outdate = none → k.processingDays = none) ∧
            (∀ i o : Date, k.indate = some i → k.outdate = some o →
              k.processingDays = some ((i : Int) - (o : Int)))) ∧
      (∀ (t : Table) (ps : List QCPre) (l : List QCRow),
        qcPres t = .ok ps → extractQC t = .ok l →
        l = (ps.filter qcKeep).map mkQCRow ∧
          (∀ p : QCPre, qcKeep p = false ↔ (p.branch = Cell.na ∨ p.tot = Cell.na)) ∧
          ∀ q ∈ l, q.branch ≠ Cell.na ∧ q.totalRec ≠ Cell.na ∧
            q.processingDays = dateSub q.indate q.outdate ∧
            (q.outdate = none → q.processingDays = none) ∧
            (∀ i o : Date, q.indate = some i → q.outdate = some o →
              q.processingDays = some ((i : Int) - (o : Int)))) ∧
      (∀ (t : Table) (ps : List FinalPre) (l : List FinalRow),
        finalPres t = .ok ps → extractFinal t = .ok l →
        l = (ps.filter finalKeep).map mkFinalRow ∧
          (∀ p : FinalPre, finalKeep p = false ↔ (p.person = Cell.na ∨ p.tot = Cell.na)) ∧
          ∀ f ∈ l, f.person ≠ Cell.na ∧ f.totalRec ≠ Cell.na ∧
            f.processingDays = dateSub f.shipDate f.outdate ∧
            (f.outdate = none → f.processingDays = none) ∧
            (∀ i o : Date, f.shipDate = some i → f.outdate = some o →
              f.processingDays = some ((i : Int) - (o : Int)))) := by
  refine ⟨?_, ?_, ?_⟩
  · intro t ps l hps hl
    have := extractKey_of_pres hps
    rw [hl] at this
    obtain rfl := Except.ok.inj this
    refine ⟨rfl, ?_, ?_⟩
    · intro p
      constructor
      · intro h
        by_contra hcon
        push_neg at hcon
        simp [keyKeep, (cellNa_iff _).not.mpr hcon.1, (cellNa_iff _).not.mpr hcon.2] at h
      · intro h
        rcases h with h | h <;> simp [keyKeep, h, cellNa]
    · intro k hk
      rcases List.mem_map.mp hk with ⟨p, hp, rfl⟩
      have hkeep := (List.mem_filter.mp hp).2
      simp only [keyKeep, Bool.and_eq_true, Bool.not_eq_true'] at hkeep
      refine ⟨?_, ?_, rfl, ?_, ?_⟩
      · exact fun hEq => by simp [mkKeyRow] at hEq; simp [hEq, cellNa] at hkeep
      · exact fun hEq => by simp [mkKeyRow] at hEq; simp [hEq, cellNa] at hkeep
      · intro ho
        have : p.out = none := ho
        simp only [mkKeyRow, this]
        cases p.ind <;> rfl
      · intro i o hi ho
        have hi' : p.ind = some i := hi
        have ho' : p.out = some o := ho
        simp [mkKeyRow, dateSub, hi', ho']
  · intro t ps l hps hl
    have := extractQC_of_pres hps
    rw [hl] at this
    obtain rfl := Except.ok.inj this
    refine ⟨rfl, ?_, ?_⟩
    · intro p
      constructor
      · intro h
        by_contra hcon
        push_neg at hcon
        simp [qcKeep, (cellNa_iff _).not.mpr hcon.1, (cellNa_iff _).not.mpr hcon.2] at h
      · intro h
        rcases h with h | h <;> simp [qcKeep, h, cellNa]
    · intro q hq
      rcases List.mem_map.mp hq with ⟨p, hp, rfl⟩
      have hkeep := (List.mem_filter.mp hp).2
      simp only [qcKeep, Bool.and_eq_true, Bool.not_eq_true'] at hkeep
      refine ⟨?_, ?_, rfl, ?_, ?_⟩
      · exact fun hEq => by simp [mkQCRow] at hEq; simp [hEq, cellNa] at hkeep
      · exact fun hEq => by simp [mkQCRow] at hEq; simp [hEq, cellNa] at hkeep
      · intro ho
        have : p.out = none := ho
        simp only [mkQCRow, this]
        cases p.ind <;> rfl
      · intro i o hi ho
        have hi' : p.ind = some i := hi
        have ho' : p.out = some o := ho
        simp [mkQCRow, dateSub, hi', ho']
  · intro t ps l hps hl
    have := extractFinal_of_pres hps
    rw [hl] at this
    obtain rfl := Except.ok.inj this
    refine ⟨rfl, ?_, ?_⟩
    · intro p
      constructor
      · intro h
        by_contra hcon
        push_neg at hcon
        simp [finalKeep, (cellNa_iff _).not.mpr hcon.1, (cellNa_iff _).not.mpr hcon.2] at h
      · intro h
        rcases h with h | h <;> simp [finalKeep, h, cellNa]
    · intro f hf
      rcases List.mem_map.mp hf with ⟨p, hp, rfl⟩
      have hkeep := (List.mem_filter.mp hp).2
      simp only [finalKeep, Bool.and_eq_true, Bool.not_eq_true'] at hkeep
      refine ⟨?_, ?_, rfl, ?_, ?_⟩
      · exact fun hEq => by simp [mkFinalRow] at hEq; simp [hEq, cellNa] at hkeep
      · exact fun hEq => by simp [mkFinalRow] at hEq; simp [hEq, cellNa] at hkeep
      · intro ho
        have : p.out = none := ho
        simp only [mkFinalRow, this]
        cases p.ship <;> rfl
      · intro i o hi ho
        have hi' : p.ship = some i := hi
        have ho' : p.out = some o := ho
        simp [mkFinalRow, dateSub, hi', ho']

/-- C2 witness: on the concrete table `tW`, whose single Key row has a
name and a total but no out-date, the retained row keeps
`ProcessingDays = Missing`. -/
theorem extractor_row_filtering_witness :
    kW.processingDays = none ∧ kW.branch ≠ Cell.na :=
  have h := extractor_row_filtering_and_processing_days.1 tW psW lW rfl rfl
  have hm := h.2.2 kW (by decide)
  ⟨hm.2.2.2.1 (by decide), hm.1⟩

/-- C9: every retained Key-process row has `On Time Status` equal to
exactly one of "On Time" or "Delayed", never a missing value; a missing
`Indate` or `Duedate` makes the comparison `Indate <= Duedate` false,
so the row is marked "Delayed", and when both dates are present the
status is decided by that comparison. -/
theorem key_on_time_status_binary :
    ∀ (t : Table) (l : List KeyRow), extractKey t = .ok l → ∀ k ∈ l,
      (k.onTimeStatus = "On Time" ∨ k.onTimeStatus = "Delayed") ∧
        ((k.indate = none ∨ k.duedate = none) → k.onTimeStatus = "Delayed") ∧
        (∀ i d : Date, k.indate = some i → k.duedate = some d →
          k.onTimeStatus = if i ≤ d then "On Time" else "Delayed") := by
  intro t l hl k hk
  cases hps : keyPres t with
  | error e => rw [extractKey, hps] at hl; cases hl
  | ok ps =>
    have := extractKey_of_pres hps
    rw [hl] at this
    obtain rfl := Except.ok.inj this
    rcases List.mem_map.mp hk with ⟨p, _, rfl⟩
    refine ⟨?_, ?_, ?_⟩
    · by_cases h : oleB p.ind p.due = true
      · exact Or.inl (by simp [mkKeyRow, h])
      · exact Or.inr (by simp [mkKeyRow, Bool.eq_false_iff.mpr h])
    · intro h
      have hb : oleB p.ind p.due = false := by
        rcases h with h | h
        · have : p.ind = none := h
          rw [this]
          rfl
        · have : p.due = none := h
          rw [this]
          cases p.ind <;> rfl
      simp [mkKeyRow, hb]
    · intro i d hi hd
      have hi' : p.ind = some i := hi
      have hd' : p.due = some d := hd
      by_cases hid : i ≤ d
      · simp [mkKeyRow, oleB, hi', hd', hid]
      · simp [mkKeyRow, oleB, hi', hd', hid]

/-- C9 witness: the single retained row of `tW` has no due-date, so its
status is "Delayed" (and not a missing value). -/
theorem key_on_time_status_binary_witness : kW.onTimeStatus = "Delayed" :=
  (key_on_time_status_binary tW lW rfl kW (by decide)).2.1 (Or.inr (by decide))

/-! ### Properties of the grouping primitives -/

section GroupBy

variable {κ : Type} [DecidableEq κ] (le : κ → κ → Bool)

theorem mem_sortKeys {a : κ} {l : List κ} : a ∈ sortKeys le l ↔ a ∈ l := by
  simp [sortKeys, List.mem_insertionSort, List.mem_dedup]

theorem sortKeys_nodup (l : List κ) : (sortKeys le l).Nodup :=
  ((List.perm_insertionSort _ _).nodup_iff).mpr (List.nodup_dedup l)

theorem groupbySum_keys (rows : List (κ × Int)) :
    (groupbySum le rows).map Prod.fst = sortKeys le (rows.map Prod.fst) := by
  unfold groupbySum
  rw [List.map_map]
  show List.map id (sortKeys le (rows.map Prod.fst)) = sortKeys le (rows.map Prod.fst)
  exact List.map_id _

theorem groupbySum_mem_keys {k : κ} {rows : List (κ × Int)} :
    k ∈ (groupbySum le rows).map Prod.fst ↔ k ∈ rows.map Prod.fst := by
  rw [groupbySum_keys]
  exact mem_sortKeys le

theorem groupbySum_nodup_keys (rows : List (κ × Int)) :
    ((groupbySum le rows).map Prod.fst).Nodup := by
  rw [groupbySum_keys]
  exact sortKeys_nodup le _

theorem groupbySum_val {k : κ} {v : Int} {rows : List (κ × Int)}
    (h : (k, v) ∈ groupbySum le rows) :
    v = ((rows.filter (fun r => r.1 = k)).map (·.2)).sum := by
  rcases List.mem_map.mp h with ⟨k', _, hk⟩
  obtain ⟨rfl, rfl⟩ : k' = k ∧ ((rows.filter (fun r => r.1 = k')).map (·.2)).sum = v :=
    ⟨congrArg Prod.fst hk, congrArg Prod.snd hk⟩
  rfl

theorem groupbySum_exists {k : κ} {rows : List (κ × Int)}
    (h : k ∈ rows.map Prod.fst) :
    (k, ((rows.filter (fun r => r.1 = k)).map (·.2)).sum) ∈ groupbySum le rows :=
  List.mem_map_of_mem _ ((mem_sortKeys le).mpr h)

/-- Rows whose mapping function yields nothing can be filtered away
before a `filterMap` without changing the result. -/
theorem filterMap_filter_eq {α β : Type} (f : α → Option β) (p : α → Bool)
    (h : ∀ a, p a = false → f a = none) :
    ∀ l : List α, (l.filter p).filterMap f = l.filterMap f := by
  intro l
  induction l with
  | nil => rfl
  | cons a as ih =>
    by_cases hp : p a = true
    · simp [List.filter_cons, hp, List.filterMap_cons, ih]
    · have hf := h a (Bool.eq_false_iff.mpr hp)
      simp [List.filter_cons, Bool.eq_false_iff.mpr hp, List.filterMap_cons, hf, ih]

theorem numberFrom_map_fst {α : Type} : ∀ (i : Nat) (l : List α),
    (numberFrom i l).map Prod.fst = List.range' i l.length := by
  intro i l
  induction l generalizing i with
  | nil => rfl
  | cons a as ih => simp [numberFrom, List.range'_succ, ih]

theorem numberFrom_map_snd {α : Type} : ∀ (i : Nat) (l : List α),
    (numberFrom i l).map Prod.snd = l := by
  intro i l
  induction l generalizing i with
  | nil => rfl
  | cons a as ih => simp [numberFrom, ih]

theorem mem_numberFrom_snd {α : Type} {x : Nat × α} {i : Nat} {l : List α}
    (h : x ∈ numberFrom i l) : x.2 ∈ l := by
  have : x.2 ∈ (numberFrom i l).map Prod.snd := List.mem_map_of_mem _ h
  rwa [numberFrom_map_snd] at this

theorem exists_mem_numberFrom {α : Type} {b : α} {l : List α} (i : Nat)
    (h : b ∈ l) : ∃ j, (j, b) ∈ numberFrom i l := by
  have : b ∈ (numberFrom i l).map Prod.snd := by rwa [numberFrom_map_snd]
  rcases List.mem_map.mp this with ⟨x, hx, hxb⟩
  exact ⟨x.1, by rwa [show (x.1, b) = x from Prod.ext rfl hxb.symm]⟩

theorem pairwise_numberFrom {α : Type} {R : α → α → Prop} :
    ∀ (i : Nat) (l : List α), List.Pairwise R l →
      List.Pairwise (fun a b : Nat × α => R a.2 b.2) (numberFrom i l) := by
  intro i l h
  induction l generalizing i with
  | nil => exact List.Pairwise.nil
  | cons a as ih =>
    rcases List.pairwise_cons.mp h with ⟨ha, has⟩
    exact List.pairwise_cons.mpr
      ⟨fun x hx => ha x.2 (mem_numberFrom_snd hx), ih (i + 1) has⟩

end GroupBy

/-! ### Overall personnel report (C1) -/

/-- C1 counterexample: two retained Key records with equal summed totals
("Bob" first in the input, "Alice" second, both 5) receive the distinct
serial ranks 1 and 2 — not the same dense rank — and the tie is ordered
by the sorted group key (Alice before Bob), not by first-seen order. -/
theorem personnel_rank_not_dense :
    mkPersonnel ksTies [] [] =
      [⟨1, Cell.str "Alice", Proc.Key, 5⟩, ⟨2, Cell.str "Bob", Proc.Key, 5⟩] := by
  decide

/-- C1 (amended): the overall personnel summary projects
(Name, TotalRecords, Process) from all three process tables, groups by
(Name, Process) (groups ordered by the sorted group key) summing
TotalRecords, sorts descending by summed total, and assigns sequential
1-based serial numbers as ranks — so groups with equal summed totals
receive distinct consecutive ranks — with exactly one row per distinct
(Name, Process) pair, whose total is the sum over all matching
records. -/
theorem mkPersonnel_spec :
    ∀ (ks : List KeyRow) (qs : List QCRow) (fs : List FinalRow) (out : List PersonnelRow),
      out = mkPersonnel ks qs fs →
      out.map (fun r => r.sno) = List.range' 1 out.length ∧
        List.Pairwise (fun a b : PersonnelRow => b.total ≤ a.total) out ∧
        (out.map (fun r => (r.name, r.proc))).Nodup ∧
        (∀ (nm : Cell) (pr : Proc), (nm, pr) ∈ out.map (fun r => (r.name, r.proc)) ↔
          (nm, pr) ∈ (projPersonnel ks qs fs).map Prod.fst) ∧
        (∀ r ∈ out, r.total =
          (((projPersonnel ks qs fs).filter
            (fun x => x.1 = (r.name, r.proc))).map (·.2)).sum) := by
  intro ks qs fs out hout
  subst hout
  unfold mkPersonnel
  set grouped := groupbySum npLe (projPersonnel ks qs fs) with hg
  set sorted := List.insertionSort byTotalDesc grouped with hs
  have hperm : List.Perm sorted grouped := List.perm_insertionSort _ _
  refine ⟨?_, ?_, ?_, ?_, ?_⟩
  · rw [List.map_map]
    have : ((fun r : PersonnelRow => r.sno) ∘
        fun p : Nat × ((Cell × Proc) × Int) => PersonnelRow.mk p.1 p.2.1.1 p.2.1.2 p.2.2) =
        Prod.fst := rfl
    rw [this, numberFrom_map_fst, List.length_map]
    congr 1
    have : (numberFrom 1 sorted).map Prod.fst = List.range' 1 sorted.length :=
      numberFrom_map_fst 1 sorted
    have hlen : (numberFrom 1 sorted).length = sorted.length := by
      have := congrArg List.length this
      simpa using this
    exact hlen.symm
  · have hsorted : List.Pairwise byTotalDesc sorted :=
      List.sorted_insertionSort byTotalDesc grouped
    have hnum := pairwise_numberFrom 1 sorted hsorted
    exact List.Pairwise.map _ (fun a b h => h) hnum
  · rw [List.map_map]
    have : ((fun r : PersonnelRow => (r.name, r.proc)) ∘
        fun p : Nat × ((Cell × Proc) × Int) => PersonnelRow.mk p.1 p.2.1.1 p.2.1.2 p.2.2) =
        (fun p : Nat × ((Cell × Proc) × Int) => p.2.1) := rfl
    rw [this]
    have h1 : ((numberFrom 1 sorted).map (fun p => p.2)).map Prod.fst =
        (numberFrom 1 sorted).map (fun p : Nat × ((Cell × Proc) × Int) => p.2.1) := by
      rw [List.map_map]
      rfl
    rw [← h1, numberFrom_map_snd]
    exact ((hperm.map Prod.fst).nodup_iff).mpr (groupbySum_nodup_keys npLe _)
  · intro nm pr
    rw [List.map_map]
    have h1 : ((fun r : PersonnelRow => (r.name, r.proc)) ∘
        fun p : Nat × ((Cell × Proc) × Int) => PersonnelRow.mk p.1 p.2.1.1 p.2.1.2 p.2.2) =
        (fun p : Nat × ((Cell × Proc) × Int) => p.2.1) := rfl
    rw [h1]
    have h2 : ((numberFrom 1 sorted).map (fun p => p.2)).map Prod.fst =
        (numberFrom 1 sorted).map (fun p : Nat × ((Cell × Proc) × Int) => p.2.1) := by
      rw [List.map_map]
      rfl
    rw [← h2, numberFrom_map_snd]
    rw [(hperm.map Prod.fst).mem_iff]
    exact groupbySum_mem_keys npLe
  · intro r hr
    rcases List.mem_map.mp hr with ⟨p, hp, rfl⟩
    have hsnd : p.2 ∈ sorted := mem_numberFrom_snd hp
    have hgrp : p.2 ∈ grouped := hperm.mem_iff.mp hsnd
    have : p.2 = (p.2.1, p.2.2) := rfl
    rw [this] at hgrp
    exact groupbySum_val npLe hgrp

/-- C1 witness: the amended theorem applied to the concrete tie input
`ksTies` — the serial ranks are 1..n. -/
theorem mkPersonnel_spec_witness :
    (mkPersonnel ksTies [] []).map (fun r => r.sno) =
      List.range' 1 (mkPersonnel ksTies [] []).length :=
  (mkPersonnel_spec ksTies [] [] (mkPersonnel ksTies [] []) rfl).1

/-! ### Records with a missing anchor date (C10) -/

/-- C10: a retained record whose anchor date is missing (`InDate` for
Key/QC, shipment date for Final) has missing `Week` and `Month`; every
weekly/monthly rollup is computed only from rows whose period key is
present (grouping drops missing keys, so such records are excluded);
yet the record still appears in its per-process table and its total is
counted by the overall personnel rollup, which sums over all matching
records regardless of the anchor. -/
theorem missing_anchor_period_exclusion :
    (∀ (t : Table) (l : List KeyRow), extractKey t = .ok l →
        ∀ k ∈ l, k.indate = none → k.week = none ∧ k.month = none) ∧
      (∀ (t : Table) (l : List QCRow), extractQC t = .ok l →
        ∀ q ∈ l, q.indate = none → q.week = none ∧ q.month = none) ∧
      (∀ (t : Table) (l : List FinalRow), extractFinal t = .ok l →
        ∀ f ∈ l, f.shipDate = none → f.week = none ∧ f.month = none) ∧
      (∀ rows : List (Cell × Int × Option Date),
        periodNameGroups (rows.filter (fun r => r.2.2.isSome)) = periodNameGroups rows) ∧
      (∀ (pr : Proc) (rows : List (Option Date × Int × Option Int)),
        procPeriodGroups pr (rows.filter (fun r => r.1.isSome)) = procPeriodGroups pr rows) ∧
      (∀ (ks : List KeyRow) (qs : List QCRow) (fs : List FinalRow), ∀ r ∈ mkPersonnel ks qs fs,
        r.proc = Proc.Key →
        r.total = ((ks.filter (fun k => k.branch = r.name)).map (fun k => cellInt k.totalRec)).sum) ∧
      (∀ (ks : List KeyRow) (qs : List QCRow) (fs : List FinalRow), ∀ k ∈ ks,
        ∃ r ∈ mkPersonnel ks qs fs, r.name = k.branch ∧ r.proc = Proc.Key) := by
  refine ⟨?_, ?_, ?_, ?_, ?_, ?_, ?_⟩
  · intro t l hl k hk hind
    cases hps : keyPres t with
    | error e => rw [extractKey, hps] at hl; cases hl
    | ok ps =>
      have := extractKey_of_pres hps
      rw [hl] at this
      obtain rfl := Except.ok.inj this
      rcases List.mem_map.mp hk with ⟨p, _, rfl⟩
      have : p.ind = none := hind
      simp [mkKeyRow, this]
  · intro t l hl q hq hind
    cases hps : qcPres t with
    | error e => rw [extractQC, hps] at hl; cases hl
    | ok ps =>
      have := extractQC_of_pres hps
      rw [hl] at this
      obtain rfl := Except.ok.inj this
      rcases List.mem_map.mp hq with ⟨p, _, rfl⟩
      have : p.ind = none := hind
      simp [mkQCRow, this]
  · intro t l hl f hf hship
    cases hps : finalPres t with
    | error e => rw [extractFinal, hps] at hl; cases hl
    | ok ps =>
      have := extractFinal_of_pres hps
      rw [hl] at this
      obtain rfl := Except.ok.inj this
      rcases List.mem_map.mp hf with ⟨p, _, rfl⟩
      have : p.ship = none := hship
      simp [mkFinalRow, this]
  · intro rows
    unfold periodNameGroups
    congr 1
    apply filterMap_filter_eq
    intro a ha
    cases hopt : a.2.2 with
    | none => rfl
    | some d => rw [hopt] at ha; cases ha
  · intro pr rows
    unfold procPeriodGroups
    congr 2
    apply filterMap_filter_eq
    intro a ha
    cases hopt : a.1 with
    | none => rfl
    | some d => rw [hopt] at ha; cases ha
  · intro ks qs fs r hr hproc
    unfold mkPersonnel at hr
    rcases List.mem_map.mp hr with ⟨p, hp, rfl⟩
    have hsnd := mem_numberFrom_snd hp
    have hgrp : p.2 ∈ groupbySum npLe (projPersonnel ks qs fs) :=
      (List.perm_insertionSort _ _).mem_iff.mp hsnd
    have hpair : (p.2.1, p.2.2) ∈ groupbySum npLe (projPersonnel ks qs fs) := hgrp
    have hval := groupbySum_val npLe hpair
    simp only [PersonnelRow.mk] at hproc ⊢
    rw [hval]
    have hkey : p.2.1 = (p.2.1.1, Proc.Key) := by
      rw [show p.2.1 = (p.2.1.1, p.2.1.2) from rfl, hproc]
    rw [hkey]
    unfold projPersonnel
    rw [List.filter_append, List.filter_append]
    have hqc : (qs.map (fun q => ((q.branch, Proc.QC), cellInt q.totalRec))).filter
        (fun x => x.1 = (p.2.1.1, Proc.Key)) = [] := by
      apply List.filter_eq_nil_iff.mpr
      intro x hx
      rcases List.mem_map.mp hx with ⟨q, _, rfl⟩
      simp
    have hfin : (fs.map (fun f => ((f.person, Proc.Final), cellInt f.totalRec))).filter
        (fun x => x.1 = (p.2.1.1, Proc.Key)) = [] := by
      apply List.filter_eq_nil_iff.mpr
      intro x hx
      rcases List.mem_map.mp hx with ⟨f, _, rfl⟩
      simp
    rw [hqc, hfin, List.append_nil, List.append_nil]
    rw [List.filter_map, List.map_map]
    have hfc : ks.filter ((fun r => decide (r.1 = (p.2.1.1, Proc.Key))) ∘
        fun k => ((k.branch, Proc.Key), cellInt k.totalRec)) =
        ks.filter (fun k => decide (k.branch = p.2.1.1)) := by
      apply List.filter_congr
      intro k _
      apply decide_eq_decide.mpr
      simp [Function.comp, Prod.ext_iff]
    rw [hfc]
    rfl
  · intro ks qs fs k hk
    have hkey : (k.branch, Proc.Key) ∈ (projPersonnel ks qs fs).map Prod.fst := by
      unfold projPersonnel
      simp only [List.map_append, List.map_map]
      apply List.mem_append_left
      apply List.mem_append_left
      exact List.mem_map.mpr ⟨k, hk, rfl⟩
    have hmem := groupbySum_exists npLe hkey
    set v := (((projPersonnel ks qs fs).filter
      (fun r => r.1 = (k.branch, Proc.Key))).map (·.2)).sum with hv
    have hsorted : ((k.branch, Proc.Key), v) ∈
        List.insertionSort byTotalDesc (groupbySum npLe (projPersonnel ks qs fs)) :=
      (List.perm_insertionSort _ _).mem_iff.mpr hmem
    rcases exists_mem_numberFrom 1 hsorted with ⟨j, hj⟩
    refine ⟨⟨j, k.branch, Proc.Key, v⟩, ?_, rfl, rfl⟩
    unfold mkPersonnel
    exact List.mem_map.mpr ⟨(j, ((k.branch, Proc.Key), v)), hj, rfl⟩

/-- C10 witness: on the table `t10`, whose single Key row has in-date
`WIP`, the retained record has missing week and month periods. -/
theorem missing_anchor_period_exclusion_witness :
    k10.week = none ∧ k10.month = none :=
  missing_anchor_period_exclusion.1 t10 l10 rfl k10 (by decide) (by decide)

/-! ### Workbook sheets (C8) -/

theorem mem_ite_singleton {c : Bool} {a b : String} :
    (a ∈ if c then [b] else ([] : List String)) ↔ (c = true ∧ a = b) := by
  cases c <;> simp

theorem sublist_step (c : Bool) (a : String) {l1 l2 : List String}
    (h : l1.Sublist l2) :
    ((if c then [a] else []) ++ l1).Sublist (a :: l2) := by
  cases c
  · exact List.Sublist.cons a h
  · exact List.Sublist.cons₂ a h

/-- C8: the sheets are created in the fixed order Key Process, QC
Process, Final Process, Weekly Report, Monthly Report, Personnel
Performance, Personnel Weekly, Personnel Monthly (so the created set is
always an order-preserving sublist of those eight names, at most eight
sheets), and each sheet is omitted exactly when its source table is
empty or absent. -/
theorem sheets_fixed_order_and_omission :
    ∀ r : Results,
      (sheetNames r).Sublist allSheetNames ∧
        (sheetNames r).length ≤ 8 ∧
        ("Key Process" ∈ sheetNames r ↔ r.key ≠ []) ∧
        ("QC Process" ∈ sheetNames r ↔ r.qc ≠ []) ∧
        ("Final Process" ∈ sheetNames r ↔ r.fin ≠ []) ∧
        ("Weekly Report" ∈ sheetNames r ↔ optNonempty r.weekly = true) ∧
        ("Monthly Report" ∈ sheetNames r ↔ optNonempty r.monthly = true) ∧
        ("Personnel Performance" ∈ sheetNames r ↔ optNonempty r.personnel = true) ∧
        ("Personnel Weekly" ∈ sheetNames r ↔ optNonempty r.personnelWeekly = true) ∧
        ("Personnel Monthly" ∈ sheetNames r ↔ optNonempty r.personnelMonthly = true) := by
  intro r
  have hsub : (sheetNames r).Sublist allSheetNames := by
    unfold sheetNames allSheetNames
    simp only [List.append_assoc]
    apply sublist_step
    apply sublist_step
    apply sublist_step
    apply sublist_step
    apply sublist_step
    apply sublist_step
    apply sublist_step
    cases optNonempty r.personnelMonthly
    · exact (List.nil_sublist _)
    · simp
  refine ⟨hsub, ?_, ?_, ?_, ?_, ?_, ?_, ?_, ?_, ?_⟩
  · have := hsub.length_le
    simpa [allSheetNames] using this
  all_goals
    simp only [sheetNames, List.mem_append, mem_ite_singleton]
    simp [List.isEmpty_iff]

/-- C8 witness: on the concrete `t24` results, the Key sheet is present
because the Key table is non-empty. -/
theorem sheets_fixed_order_and_omission_witness :
    "Key Process" ∈ sheetNames r24 :=
  (sheets_fixed_order_and_omission r24).2.2.1.mpr (by decide)

/-! ### Partial failure containment (C5) -/

/-- C5: when Final-process extraction fails (for example because the
configured columns exceed the table width) while Key and QC succeed,
the Final table degrades to empty with a warning recorded for Final
only; the Key and QC tables are untouched, every aggregate is still
computed from the surviving data, a result workbook is still produced,
and it contains the sheets of the successful data but no Final sheet. -/
theorem process_failure_containment :
    ∀ (t : Table) (ks : List KeyRow) (qs : List QCRow) (e : String),
      t.rows ≠ [] → extractKey t = .ok ks → extractQC t = .ok qs →
      extractFinal t = .error e →
      ∃ r : Results, processAll t = some r ∧
        r.fin = [] ∧ r.key = ks ∧ r.qc = qs ∧ r.warnings = ["Final"] ∧
        (ks ≠ [] ∨ qs ≠ [] →
          r.personnel = some (mkPersonnel ks qs []) ∧
            r.weekly = some (pivotPeriod (weeklyGroups ks qs [])) ∧
            r.monthly = some (pivotPeriod (monthlyGroups ks qs []))) ∧
        "Final Process" ∉ sheetNames r ∧
        (ks ≠ [] → "Key Process" ∈ sheetNames r) ∧
        (qs ≠ [] → "QC Process" ∈ sheetNames r) := by
  intro t ks qs e hrows hK hQ hF
  have hne : t.rows.isEmpty = false := by
    cases h : t.rows with
    | nil => exact absurd h hrows
    | cons a as => rfl
  have hPA : processAll t = some
      { key := ks
        qc := qs
        fin := []
        weekly :=
          if !ks.isEmpty || !qs.isEmpty || false then
            some (pivotPeriod (weeklyGroups ks qs [])) else none
        monthly :=
          if !ks.isEmpty || !qs.isEmpty || false then
            some (pivotPeriod (monthlyGroups ks qs [])) else none
        personnel :=
          if !ks.isEmpty || !qs.isEmpty || false then
            some (mkPersonnel ks qs []) else none
        personnelWeekly :=
          if !ks.isEmpty || !qs.isEmpty || false then
            some (mkPersonnelPeriodFrom
              (ks.map (fun k => (k.branch, cellInt k.totalRec, k.week)))
              (qs.map (fun q => (q.branch, cellInt q.totalRec, q.week))) [])
          else none
        personnelMonthly :=
          if !ks.isEmpty || !qs.isEmpty || false then
            some (mkPersonnelPeriodFrom
              (ks.map (fun k => (k.branch, cellInt k.totalRec, k.month)))
              (qs.map (fun q => (q.branch, cellInt q.totalRec, q.month))) [])
          else none
        warnings := ["Final"] } := by
    unfold processAll
    rw [hK, hQ, hF, hne]
    rfl
  refine ⟨_, hPA, rfl, rfl, rfl, rfl, ?_, ?_, ?_, ?_⟩
  · intro h
    have hcond : (!ks.isEmpty || !qs.isEmpty || false) = true := by
      rcases h with h | h
      · have : ks.isEmpty = false := by simpa [List.isEmpty_iff] using h
        simp [this]
      · have : qs.isEmpty = false := by simpa [List.isEmpty_iff] using h
        simp [this]
    simp [hcond]
  · simp [sheetNames, mem_ite_singleton]
  · intro h
    have hk : ks.isEmpty = false := by simpa [List.isEmpty_iff] using h
    simp [sheetNames, mem_ite_singleton, hk]
  · intro h
    have hq : qs.isEmpty = false := by simpa [List.isEmpty_iff] using h
    simp [sheetNames, mem_ite_singleton, hq]

/-- C5 witness: on the 24-column table `t24`, Key and QC succeed and
Final fails, the only warning is Final's, and the Key sheet is still
produced while the Final sheet is not. -/
theorem process_failure_containment_witness :
    ∃ r : Results, processAll t24 = some r ∧
      r.fin = [] ∧ r.key = (extractKey t24).toOption.getD [] ∧
      r.qc = (extractQC t24).toOption.getD [] ∧ r.warnings = ["Final"] ∧
      (((extractKey t24).toOption.getD [] ≠ [] ∨
          (extractQC t24).toOption.getD [] ≠ []) →
        r.personnel = some (mkPersonnel ((extractKey t24).toOption.getD [])
          ((extractQC t24).toOption.getD []) []) ∧
          r.weekly = some (pivotPeriod (weeklyGroups ((extractKey t24).toOption.getD [])
            ((extractQC t24).toOption.getD []) [])) ∧
          r.monthly = some (pivotPeriod (monthlyGroups ((extractKey t24).toOption.getD [])
            ((extractQC t24).toOption.getD []) []))) ∧
      "Final Process" ∉ sheetNames r ∧
      ((extractKey t24).toOption.getD [] ≠ [] → "Key Process" ∈ sheetNames r) ∧
      ((extractQC t24).toOption.getD [] ≠ [] → "QC Process" ∈ sheetNames r) :=
  process_failure_containment t24 ((extractKey t24).toOption.getD [])
    ((extractQC t24).toOption.getD []) "IndexError" (by decide) rfl rfl rfl

/-! ### Period pivot reports (C6) -/

theorem find?_append_first {α : Type} {p : α → Bool} {l1 l2 : List α} {a : α}
    (h : l1.find? p = some a) : (l1 ++ l2).find? p = some a := by
  induction l1 with
  | nil => cases h
  | cons x xs ih =>
    by_cases hx : p x = true
    · rw [List.find?_cons_of_pos _ hx] at h
      rw [List.cons_append, List.find?_cons_of_pos _ hx]
      exact h
    · have hx' : p x = false := Bool.eq_false_iff.mpr hx
      rw [List.find?_cons_of_neg _ hx] at h
      rw [List.cons_append, List.find?_cons_of_neg _ hx]
      exact ih h

theorem find?_append_skip {α : Type} {p : α → Bool} {l1 l2 : List α}
    (h : l1.find? p = none) : (l1 ++ l2).find? p = l2.find? p := by
  induction l1 with
  | nil => rfl
  | cons x xs ih =>
    by_cases hx : p x = true
    · rw [List.find?_cons_of_pos _ hx] at h
      cases h
    · rw [List.find?_cons_of_neg _ hx] at h
      rw [List.cons_append, List.find?_cons_of_neg _ hx]
      exact ih h

theorem procStr_inj {q pr : Proc} (h : procStr q = procStr pr) : q = pr := by
  cases q <;> cases pr <;> simp_all [procStr]

theorem name_beq_iff (pre : String) (q pr : Proc) :
    ((pre ++ procStr q == pre ++ procStr pr) = true) ↔ q = pr := by
  constructor
  · intro h
    have h1 : pre ++ procStr q = pre ++ procStr pr := eq_of_beq h
    have h2 : pre.data ++ (procStr q).data = pre.data ++ (procStr pr).data :=
      congrArg String.data h1
    have h3 : (procStr q).data = (procStr pr).data := List.append_cancel_left h2
    exact procStr_inj (by
      cases hq : procStr q
      cases hp : procStr pr
      rw [hq, hp] at h3
      exact congrArg String.mk h3)
  · intro h
    subst h
    exact beq_self_eq_true _

theorem pd_tr_name_ne (q pr : Proc) :
    ((("Processing Days " ++ procStr q) : String) == "Total Rec. " ++ procStr pr) = false := by
  cases q <;> cases pr <;> decide

theorem block_find? (pre : String) (f : Proc → ℚ) (pr : Proc) :
    ∀ procs : List Proc, pr ∈ procs →
      (procs.map (fun q => (pre ++ procStr q, f q))).find?
          (fun c => c.1 == pre ++ procStr pr) =
        some (pre ++ procStr pr, f pr) := by
  intro procs hmem
  induction procs with
  | nil => cases hmem
  | cons q rest ih =>
    rw [List.map_cons]
    by_cases hq : q = pr
    · subst hq
      exact List.find?_cons_of_pos _ (by simp)
    · have hne : ¬((fun c : String × ℚ => c.1 == pre ++ procStr pr)
          (pre ++ procStr q, f q) = true) :=
        fun hc => hq ((name_beq_iff pre q pr).mp hc)
      rcases List.mem_cons.mp hmem with rfl | hmem'
      · exact absurd rfl hq
      · have hstep : List.find? (fun c : String × ℚ => c.1 == pre ++ procStr pr)
            ((pre ++ procStr q, f q) :: rest.map (fun q => (pre ++ procStr q, f q))) =
            List.find? (fun c : String × ℚ => c.1 == pre ++ procStr pr)
              (rest.map (fun q => (pre ++ procStr q, f q))) :=
          List.find?_cons_of_neg _ hne
        exact hstep.trans (ih hmem')

/-- C6 counterexample: with Key activity in one week and no Final
activity anywhere, the weekly pivot row carries no Final columns at all
— looking up "Total Rec. Final" yields nothing rather than 0 — refuting
the claim that every (period, process) combination fills with 0. -/
theorem weekly_pivot_final_columns_absent :
    pivotPeriod (weeklyGroups lW [] []) =
      [⟨weekStartD (civilToDay 2024 3 5),
        [("Processing Days Key", 0), ("Total Rec. Key", 7)]⟩] ∧
      lookupCell (⟨weekStartD (civilToDay 2024 3 5),
        [("Processing Days Key", 0), ("Total Rec. Key", 7)]⟩ : PivotRow)
        "Total Rec. Final" = none ∧
      lookupCell (⟨weekStartD (civilToDay 2024 3 5),
        [("Processing Days Key", 0), ("Total Rec. Key", 7)]⟩ : PivotRow)
        "Total Rec. Key" = some 7 := by
  refine ⟨by decide, by decide, by decide⟩

/-- C6 (amended): the weekly/monthly pivot has exactly one row per
period present in any process; each (metric, process) pair becomes one
column named by joining metric and process name with a space for each process that has at
least one aggregated group (a process with no data contributes no
columns); within those columns a (period, process) combination with no
group fills with 0, so a period with zero Final activity but nonzero
Key activity yields a row whose Final columns are 0 provided Final has
data in some other period. -/
theorem pivot_period_spec :
    ∀ (gs : List PeriodGroup) (out : List PivotRow), out = pivotPeriod gs →
      (out.map (fun row => row.period)).Nodup ∧
        (∀ p : Date, p ∈ out.map (fun row => row.period) ↔
          p ∈ gs.map (fun g => g.period)) ∧
        (∀ row ∈ out, ∀ pr : Proc, pr ∈ gs.map (fun g => g.proc) →
          lookupCell row ("Total Rec. " ++ procStr pr) =
            some (((gs.find? (fun g => g.period == row.period && g.proc == pr)).map
              (fun g => (g.total : ℚ))).getD 0) ∧
            lookupCell row ("Processing Days " ++ procStr pr) =
              some (((gs.find? (fun g => g.period == row.period && g.proc == pr)).bind
                (fun g => g.avgPD)).getD 0)) ∧
        (∀ row ∈ out, ∀ pr : Proc, pr ∈ gs.map (fun g => g.proc) →
          gs.find? (fun g => g.period == row.period && g.proc == pr) = none →
          lookupCell row ("Total Rec. " ++ procStr pr) = some 0) := by
  intro gs out hout
  have hcells : ∀ row ∈ out, ∀ pr : Proc, pr ∈ gs.map (fun g => g.proc) →
      lookupCell row ("Total Rec. " ++ procStr pr) =
        some (((gs.find? (fun g => g.period == row.period && g.proc == pr)).map
          (fun g => (g.total : ℚ))).getD 0) ∧
        lookupCell row ("Processing Days " ++ procStr pr) =
          some (((gs.find? (fun g => g.period == row.period && g.proc == pr)).bind
            (fun g => g.avgPD)).getD 0) := by
    intro row hrow pr hpr
    subst hout
    unfold pivotPeriod at hrow
    rcases List.mem_map.mp hrow with ⟨p, _, rfl⟩
    have hprocs : pr ∈ sortKeys procLe (gs.map (fun g => g.proc)) :=
      (mem_sortKeys procLe).mpr hpr
    constructor
    · unfold lookupCell
      have hskip : ((sortKeys procLe (gs.map (fun g => g.proc))).map
          (fun q => ("Processing Days " ++ procStr q,
            ((gs.find? (fun g => g.period == p && g.proc == q)).bind
              (fun g => g.avgPD)).getD 0))).find?
          (fun c => c.1 == "Total Rec. " ++ procStr pr) = none := by
        apply List.find?_eq_none.mpr
        intro x hx
        rcases List.mem_map.mp hx with ⟨q, _, rfl⟩
        simp [pd_tr_name_ne q pr]
      rw [find?_append_skip hskip, block_find? _ _ _ _ hprocs]
      simp
    · unfold lookupCell
      rw [find?_append_first (block_find? _ _ _ _ hprocs)]
      simp
  have hproj : (pivotPeriod gs).map (fun row => row.period) =
      sortKeys natLe (gs.map (fun g => g.period)) := by
    unfold pivotPeriod
    rw [List.map_map]
    exact (List.map_congr_left (fun a _ => rfl)).trans (List.map_id _)
  refine ⟨?_, ?_, hcells, ?_⟩
  · subst hout
    rw [hproj]
    exact sortKeys_nodup natLe _
  · intro p
    subst hout
    rw [hproj]
    exact mem_sortKeys natLe
  · intro row hrow pr hpr hnone
    have := (hcells row hrow pr hpr).1
    rw [hnone] at this
    simpa using this

/-- C6 witness: the amended theorem applied to `gsW` (Key in periods
100 and 107, Final only in 107): the row for period 100 fills
"Total Rec. Final" with 0. -/
theorem pivot_period_spec_witness :
    lookupCell ((pivotPeriod gsW).getD 0 dummyPivotRow) "Total Rec. Final" = some 0 :=
  (pivot_period_spec gsW (pivotPeriod gsW) rfl).2.2.2
    ((pivotPeriod gsW).getD 0 dummyPivotRow) (by decide) Proc.Final (by decide) (by decide)

end ProdReport
